import Mathlib

set_option linter.unusedVariables false

namespace RecipeApi

/-- JSON-like values: the shape of data flowing through the post delta
pipeline (`app/post/utils.py`).  Python dicts are modelled as association
lists in insertion order, which is how `dict` iterates and how lookup
resolves; Python `None` is `null`. -/
inductive JValue where
  | null : JValue
  | bool (b : Bool) : JValue
  | int (n : Int) : JValue
  | str (s : String) : JValue
  | arr (items : List JValue) : JValue
  | obj (fields : List (String × JValue)) : JValue

/-- A Python dict of JSON values. -/
abbrev Jobj := List (String × JValue)

/-- Python truthiness of a JSON value: `None`, `False`, `0`, `""`, `[]`
and an empty dict are falsy, everything else is truthy. -/
def JValue.isTruthy : JValue → Bool
  | .null => false
  | .bool b => b
  | .int n => n != 0
  | .str s => !(s.isEmpty)
  | .arr items => !(items.isEmpty)
  | .obj fields => !(fields.isEmpty)

/-- Dict lookup `d.get(k)`: the first binding of the key wins. -/
def jget (l : Jobj) (k : String) : Option JValue :=
  match l with
  | [] => none
  | p :: rest => if p.1 = k then some p.2 else jget rest k

/-- Dict key membership `k in d`. -/
def hasKey (l : Jobj) (k : String) : Bool :=
  match l with
  | [] => false
  | p :: rest => if p.1 = k then true else hasKey rest k

/-- Dict assignment `d[k] = v`: replaces the first binding of the key in
place, appending when the key is new. -/
def jset (l : Jobj) (k : String) (v : JValue) : Jobj :=
  match l with
  | [] => [(k, v)]
  | p :: rest => if p.1 = k then (k, v) :: rest else p :: jset rest k v

/-- Per-character translation of Python `html.escape(s, quote=True)`,
as used by `render_delta_to_html`.  The sequential `str.replace` calls in
CPython are equivalent to this simultaneous per-character map because no
replacement output contains a character that a later replacement rewrites
before it was produced. -/
def escapeChar (c : Char) : String :=
  if c = '&' then "&amp;"
  else if c = '<' then "&lt;"
  else if c = '>' then "&gt;"
  else if c = '"' then "&quot;"
  else if c = Char.ofNat 39 then "&#x27;"
  else String.singleton c

/-- Python `html.escape(s, quote=True)`. -/
def pyHtmlEscape (s : String) : String :=
  String.join (s.data.map escapeChar)

/-- Python `html.escape` applied to an arbitrary value: CPython raises
(`AttributeError`) when the argument is not a string, since `escape`
immediately calls `s.replace`. -/
def pyHtmlEscapeValue : JValue → Except String String
  | .str s => .ok (pyHtmlEscape s)
  | _ => .error "TypeError: html.escape expects a string"

/-- Rendering of a single delta op, the loop body of
`render_delta_to_html` (`app/post/utils.py` lines 50-83).  A raised
exception (escape of a non-string, attribute access on a truthy
non-dict `attributes`) is modelled as `Except.error`. -/
def renderOp (op : Jobj) : Except String String :=
  let insert := (jget op "insert").getD .null
  let attributes := (jget op "attributes").getD (.obj [])
  if !insert.isTruthy then .ok ""
  else
    match insert with
    | .str s =>
      let content := pyHtmlEscape s
      if attributes.isTruthy then
        match attributes with
        | .obj afields =>
          let content :=
            if ((jget afields "bold").getD .null).isTruthy then
              "<strong>" ++ content ++ "</strong>"
            else content
          let content :=
            if ((jget afields "italic").getD .null).isTruthy then
              "<em>" ++ content ++ "</em>"
            else content
          let content :=
            if ((jget afields "underline").getD .null).isTruthy then
              "<u>" ++ content ++ "</u>"
            else content
          let content :=
            if ((jget afields "strike").getD .null).isTruthy then
              "<s>" ++ content ++ "</s>"
            else content
          if ((jget afields "link").getD .null).isTruthy then
            match pyHtmlEscapeValue ((jget afields "link").getD .null) with
            | .ok url =>
              .ok ("<a href=\"" ++ url ++
                   "\" target=\"_blank\" rel=\"noopener noreferrer\">" ++
                   content ++ "</a>")
            | .error e => .error e
          else .ok content
        | _ => .error "AttributeError: get called on a non-dict"
      else .ok content
    | .obj ifields =>
      if hasKey ifields "image" then
        match pyHtmlEscapeValue ((jget ifields "image").getD .null) with
        | .ok url => .ok ("<img src=\"" ++ url ++ "\" alt=\"Embedded image\"/>")
        | .error e => .error e
      else .ok ""
    | _ => .ok ""

/-- Embedding of `render_delta_to_html` (`app/post/utils.py` lines
38-85): per-op fragments concatenated in order with no separators. -/
def render_delta_to_html : List Jobj → Except String String
  | [] => .ok ""
  | op :: rest =>
    match renderOp op with
    | .error e => .error e
    | .ok h =>
      match render_delta_to_html rest with
      | .error e => .error e
      | .ok hs => .ok (h ++ hs)

/-- One validated delta operation: the validated form the serializer
produces (the `attributes` key is absent from validated data when it was
absent from the input). -/
structure DeltaOp where
  insert : JValue
  attributes : Option JValue

/-- A validated delta document: `schema_version` plus validated ops. -/
structure DeltaDocument where
  schema_version : Int
  delta : List DeltaOp

/-- Field-name/message pairs recorded for one invalid op; empty for an op
that validated cleanly. -/
abbrev OpErrors := List (String × String)

/-- Error detail recorded under one top-level field of the document
serializer: either plain messages or, for the `delta` list, one entry per
incoming op. -/
inductive FieldError where
  | messages (msgs : List String) : FieldError
  | opErrors (entries : List OpErrors) : FieldError

/-- Error mapping exposed by `serializer.errors`. -/
abbrev Errors := List (String × FieldError)

/-- Embedding of `TextOrMediaField.to_internal_value` (`app/post/utils.py`
lines 93-97): accepts a string or a dict, rejects everything else. -/
def textOrMedia_to_internal_value (data : JValue) : Except String JValue :=
  match data with
  | .str _ => .ok data
  | .obj _ => .ok data
  | _ => .error "This field must be a string or a dictionary."

/-- Disallowed media keys, from `DeltaOpsSerializer.validate_insert`. -/
def DISALLOWED_MEDIA_TYPES : List String := ["video"]

/-- Embedding of `DeltaOpsSerializer.validate_insert` (`app/post/utils.py`
lines 113-132): rejects a dict insert containing any disallowed media
key. -/
def validate_insert (value : JValue) : Except String JValue :=
  let contains_forbidden_media :=
    match value with
    | .obj fields => DISALLOWED_MEDIA_TYPES.any (fun m => hasKey fields m)
    | _ => false
  if contains_forbidden_media then
    .error "Insert of video is not allowed."
  else .ok value

/-- Validation of one incoming op, mirroring DRF
`Serializer.to_internal_value` for `DeltaOpsSerializer`: each declared
field (`insert`, `attributes`) is read from the incoming dict, keys not
corresponding to a declared field are ignored, and per-field errors are
collected.  The `insert` value runs through the field and then the
serializer-level `validate_insert`; `attributes` is a `DictField`
with unvalidated values. -/
def validateOp (item : JValue) : Except OpErrors DeltaOp :=
  match item with
  | .obj fields =>
    let insertR : Except OpErrors JValue :=
      match jget fields "insert" with
      | none => .error [("insert", "This field is required.")]
      | some v =>
        match textOrMedia_to_internal_value v with
        | .error m => .error [("insert", m)]
        | .ok v1 =>
          match validate_insert v1 with
          | .error m => .error [("insert", m)]
          | .ok v2 => .ok v2
    let attributesR : Except OpErrors (Option JValue) :=
      match jget fields "attributes" with
      | none => .ok none
      | some (.obj afields) => .ok (some (.obj afields))
      | some _ =>
        .error [("attributes", "Expected a dictionary of items.")]
    match insertR, attributesR with
    | .ok i, .ok a => .ok { insert := i, attributes := a }
    | .error e1, .error e2 => .error (e1 ++ e2)
    | .error e1, .ok _ => .error e1
    | .ok _, .error e2 => .error e2
  | _ => .error [("non_field_errors", "Invalid data. Expected a dictionary.")]

/-- Errors recorded for one op result; empty placeholder for a valid op,
as DRF's `ListSerializer` does. -/
def opResultErrors (r : Except OpErrors DeltaOp) : OpErrors :=
  match r with
  | .error e => e
  | .ok _ => []

/-- Whether one op result is an error. -/
def isErrorResult (r : Except OpErrors DeltaOp) : Bool :=
  match r with
  | .error _ => true
  | .ok _ => false

/-- Projection of a successful op result. -/
def okResult? (r : Except OpErrors DeltaOp) : Option DeltaOp :=
  match r with
  | .ok op => some op
  | .error _ => none

/-- Validation of the `delta` field, mirroring DRF
`ListSerializer.to_internal_value` for `DeltaOpsSerializer(many=True)`:
non-list input is rejected outright; otherwise every op is validated and
either all validated ops are returned or the per-op error list (with
empty placeholders for valid ops) is raised. -/
def validateOps (v : JValue) : Except FieldError (List DeltaOp) :=
  match v with
  | .arr items =>
    let results := items.map validateOp
    if results.any isErrorResult then
      .error (.opErrors (results.map opResultErrors))
    else
      .ok (results.filterMap okResult?)
  | _ => .error (.messages ["Expected a list of items but got a different type."])

/-- Validation of `schema_version`: DRF `IntegerField(default=0,
required=False)` restricted to the JSON boundary of §6 — an absent key
yields the default 0, an integer is accepted, any other shape fails.
(DRF would additionally coerce numeric strings; that coercion is outside
the boundary schema and never reached by the claims.) -/
def validateSchemaVersion (v : Option JValue) : Except (List String) Int :=
  match v with
  | none => .ok 0
  | some (.int n) => .ok n
  | some _ => .error ["A valid integer is required."]

/-- Whole-document validation: `QuillDeltaSerializer(data=...)` with
`is_valid()` and `validated_data`/`errors` (`app/post/utils.py` lines
135-145).  Declared fields are `schema_version` (default 0) and `delta`
(default `[]`); keys of the incoming mapping not corresponding to a
declared field are ignored; errors from all fields are collected. -/
def validate (data : JValue) : Except Errors DeltaDocument :=
  match data with
  | .obj fields =>
    let svR := validateSchemaVersion (jget fields "schema_version")
    let deltaR : Except FieldError (List DeltaOp) :=
      match jget fields "delta" with
      | none => .ok []
      | some v => validateOps v
    match svR, deltaR with
    | .ok s, .ok d => .ok { schema_version := s, delta := d }
    | .error e1, .error e2 => .error [("schema_version", .messages e1), ("delta", e2)]
    | .error e1, .ok _ => .error [("schema_version", .messages e1)]
    | .ok _, .error e2 => .error [("delta", e2)]
  | _ => .error [("non_field_errors", .messages ["Invalid data. Expected a dictionary."])]

/-- Environment abstracting the side-effecting collaborators of
`QuillDeltaSerializer._process_files`: per-op download outcome
(`download_image_content` returns the bytes or `None` after swallowing
any exception), whether the storage steps (model field lookup, file
save) complete without raising, and the retrieval URL the storage
collaborator assigns to the file saved for that op.  Outcomes are
indexed by op position so that two ops with the same URL may fare
differently within one call. -/
structure RehostEnv where
  downloadOk : Nat → String → Bool
  storeOk : Nat → Bool
  storedUrl : Nat → String

/-- Configuration guard of `_process_files`: the serializer's
`file_field_name` (falsy when `None` or the empty string) and the
presence of the owning instance. -/
structure RehostConfig where
  file_field_name : Option String
  has_instance : Bool

/-- Truthiness of the configured file field name. -/
def RehostConfig.fieldNameTruthy (cfg : RehostConfig) : Bool :=
  match cfg.file_field_name with
  | none => false
  | some s => !(s.isEmpty)

/-- Guard under which `_process_files` does any work at all
(`if not self.file_field_name or not instance: return False`). -/
def RehostConfig.active (cfg : RehostConfig) : Bool :=
  cfg.fieldNameTruthy && cfg.has_instance

/-- Embedding of `QuillDeltaSerializer._is_insert_image` lines 223-231:
a dict whose `image` entry is a string. -/
def is_insert_image (insert : Option JValue) : Bool :=
  match insert with
  | some (.obj fields) =>
    match jget fields "image" with
    | some (.str _) => true
    | _ => false
  | _ => false

/-- Embedding of `QuillDeltaSerializer._is_valid_insert_image_url` lines
233-240: a string starting with `http://` or `https://` (prefix test on
the character sequence, as `str.startswith` performs it). -/
def is_valid_insert_image_url (url : JValue) : Bool :=
  match url with
  | .str s =>
    List.isPrefixOf "http://".data s.data || List.isPrefixOf "https://".data s.data
  | _ => false

/-- Loop body of `_process_files` for the op at position `i`:
non-qualifying ops are untouched; a download failure, or an exception in
the field-lookup/save steps, leaves the op untouched and the flag unset;
on success the op's `insert.image` is overwritten in place with the
storage collaborator's URL and the op counts as modified. -/
def processOp (env : RehostEnv) (i : Nat) (op : Jobj) : Jobj × Bool :=
  let insert := jget op "insert"
  if is_insert_image insert then
    match insert with
    | some (.obj ifields) =>
      match jget ifields "image" with
      | some imageVal =>
        if is_valid_insert_image_url imageVal then
          match imageVal with
          | .str image_url =>
            if env.downloadOk i image_url then
              if env.storeOk i then
                (jset op "insert" (.obj (jset ifields "image" (.str (env.storedUrl i)))),
                 true)
              else (op, false)
            else (op, false)
          | _ => (op, false)
        else (op, false)
      | none => (op, false)
    | _ => (op, false)
  else (op, false)

/-- The `for op in delta` loop of `_process_files`, carrying the position
of the current op and accumulating the `is_modified` flag. -/
def processFilesLoop (env : RehostEnv) (i : Nat) : List Jobj → List Jobj × Bool
  | [] => ([], false)
  | op :: rest =>
    let r := processOp env i op
    let rs := processFilesLoop env (i + 1) rest
    (r.1 :: rs.1, r.2 || rs.2)

/-- Embedding of `QuillDeltaSerializer._process_files` lines 159-210:
returns the (possibly rewritten in place) ops together with the
`is_modified` flag; a falsy `file_field_name` or an absent instance
short-circuits to `False` with the ops untouched. -/
def process_files (cfg : RehostConfig) (env : RehostEnv)
    (delta : List Jobj) : List Jobj × Bool :=
  if cfg.active then processFilesLoop env 0 delta else (delta, false)

/-- The owning entity as the document pipeline observes it: the delta
ops stored under its document field. -/
structure Entity where
  doc : List Jobj

/-- Observable steps of a create/update flow: a persistence of the
entity (recording the document it is persisted with) or an invocation of
the rehoster (recording the document it is handed). -/
inductive FlowEvent where
  | persist (doc : List Jobj) : FlowEvent
  | rehost (doc : List Jobj) : FlowEvent

/-- Embedding of `CreateFileQuillDeltaMixin.create` plus
`perform_create_file` (`app/post/utils.py` lines 254-278): the entity is
constructed from the validated data and persisted; when a
`QuillDeltaSerializer` field is declared among the serializer's fields
(`has_quill_field`, true for `PostSerializer`), the rehoster is invoked
on the very delta object just persisted, and the entity is saved a
second time exactly when the rehoster reports a modification.  Because
`_process_files` mutates ops in place, the entity's in-memory document
reflects the rewrite whether or not the second save runs. -/
def mixin_create (has_quill_field : Bool) (cfg : RehostConfig) (env : RehostEnv)
    (validatedDelta : List Jobj) : Entity × List FlowEvent :=
  let instance0 : Entity := { doc := validatedDelta }
  if has_quill_field then
    let r := process_files cfg env instance0.doc
    let instance1 : Entity := { doc := r.1 }
    if r.2 then
      (instance1, [.persist validatedDelta, .rehost validatedDelta, .persist r.1])
    else
      (instance1, [.persist validatedDelta, .rehost validatedDelta])
  else
    (instance0, [.persist validatedDelta])

/-- Embedding of `UpdateFileQuillDeltaMixin.update` plus
`perform_update_file` (`app/post/utils.py` lines 292-316):
`super().update` applies the validated data to the existing entity and
persists it, then the same rehost-and-conditionally-save-again step as
creation runs. -/
def mixin_update (has_quill_field : Bool) (cfg : RehostConfig) (env : RehostEnv)
    (existing : Entity) (validatedDelta : List Jobj) : Entity × List FlowEvent :=
  let instance0 : Entity := { existing with doc := validatedDelta }
  if has_quill_field then
    let r := process_files cfg env instance0.doc
    let instance1 : Entity := { doc := r.1 }
    if r.2 then
      (instance1, [.persist validatedDelta, .rehost validatedDelta, .persist r.1])
    else
      (instance1, [.persist validatedDelta, .rehost validatedDelta])
  else
    (instance0, [.persist validatedDelta])

/-- Index of the first occurrence of a character, Python `str.find`
restricted to found/not-found. -/
def idxOf? (c : Char) : List Char → Option Nat
  | [] => none
  | x :: xs => if x = c then some 0 else (idxOf? c xs).map (fun i => i + 1)

/-- Index of the last occurrence of a character, Python `str.rfind`. -/
def rIdxOf? (c : Char) (l : List Char) : Option Nat :=
  (idxOf? c l.reverse).map (fun j => l.length - 1 - j)

/-- Index of the first occurrence at or after `start`, Python
`str.find(c, start)`. -/
def idxOfFrom? (c : Char) (l : List Char) (start : Nat) : Option Nat :=
  (idxOf? c (l.drop start)).map (fun i => i + start)

/-- Everything before the first occurrence of `c`, the whole list when
absent: `str.split(c, 1)[0]`. -/
def takeUntilChar (c : Char) (l : List Char) : List Char :=
  match idxOf? c l with
  | none => l
  | some i => l.take i

/-- Characters allowed after the first character of a URL scheme,
CPython `urllib.parse.scheme_chars`. -/
def schemeChar (c : Char) : Bool :=
  c.isAlphanum || c = '+' || c = '-' || c = '.'

/-- Path component produced by CPython `urllib.parse.urlsplit`: strip a
valid scheme prefix, strip a `//netloc` up to the first of `/`, `?`, `#`
(raising on mismatched square brackets, modelled as `Except.error`),
then strip the fragment after the first `#` and the query after the
first `?`.  (The non-ASCII NFKC netloc check of `_checknetloc` is not
modelled; no claim involves a non-ASCII authority.) -/
def urlsplit_path (url : List Char) : Except String (List Char) :=
  let url1 :=
    match idxOf? ':' url with
    | none => url
    | some i =>
      let before := url.take i
      let after := url.drop (i + 1)
      match before with
      | [] => url
      | b :: bs => if b.isAlpha && bs.all schemeChar then after else url
  match url1 with
  | '/' :: '/' :: rest =>
    let netloc := rest.takeWhile (fun c => c ≠ '/' && c ≠ '?' && c ≠ '#')
    let rem := rest.drop netloc.length
    if (netloc.contains '[' && !(netloc.contains ']')) ||
       (netloc.contains ']' && !(netloc.contains '[')) then
      .error "Invalid IPv6 URL"
    else
      .ok (takeUntilChar '?' (takeUntilChar '#' rem))
  | _ => .ok (takeUntilChar '?' (takeUntilChar '#' url1))

/-- Embedding of CPython `urllib.parse._splitparams`, which `urlparse`
applies to the split path when it contains a semicolon: parameters after
the final segment's first semicolon are dropped. -/
def splitparams (p : List Char) : List Char :=
  if p.contains '/' then
    match idxOfFrom? ';' p ((rIdxOf? '/' p).getD 0) with
    | none => p
    | some i => p.take i
  else
    match idxOf? ';' p with
    | none => p
    | some i => p.take i

/-- Path component of CPython `urllib.parse.urlparse`: the split path
with parameters removed when a semicolon is present. -/
def urlparse_path (url : String) : Except String String :=
  match urlsplit_path url.data with
  | .error e => .error e
  | .ok p => .ok (String.mk (if p.contains ';' then splitparams p else p))

/-- Embedding of `posixpath.basename`: everything after the last slash. -/
def pybasename (p : List Char) : List Char :=
  match rIdxOf? '/' p with
  | none => p
  | some i => p.drop (i + 1)

/-- Extension part of `posixpath.splitext`: the suffix from the last
dot, provided that dot lies after the last slash and at least one
non-dot character of the final component precedes it (so leading dots do
not start an extension). -/
def pysplitextExt (p : List Char) : List Char :=
  match rIdxOf? '.' p with
  | none => []
  | some dotIndex =>
    let start :=
      match rIdxOf? '/' p with
      | none => 0
      | some sepIndex => sepIndex + 1
    if start ≤ dotIndex && ((p.take dotIndex).drop start).any (fun c => c ≠ '.') then
      p.drop dotIndex
    else []

/-- Extension that `_get_path` extracts from the URL's path component,
possibly empty, before the `.jpg` fallback is applied. -/
def url_ext (image_url : String) : Except String String :=
  match urlparse_path image_url with
  | .error e => .error e
  | .ok path => .ok (String.mk (pysplitextExt (pybasename path.data)))

/-- Embedding of `QuillDeltaSerializer._get_path` lines 212-221:
`post_images/{uuid}{ext or .jpg}` where `ext` comes from
`os.path.splitext(os.path.basename(urlparse(image_url).path))` and the
random `uuid.uuid4()` string is passed in explicitly. -/
def get_path (uuidStr : String) (image_url : String) : Except String String :=
  match urlparse_path image_url with
  | .error e => .error e
  | .ok path =>
    let ext := String.mk (pysplitextExt (pybasename path.data))
    .ok ("post_images/" ++ uuidStr ++ (if ext = "" then ".jpg" else ext))

/-- Association-list lookup, used for navigating error structures. -/
def alookup {α : Type} (l : List (String × α)) (k : String) : Option α :=
  match l with
  | [] => none
  | p :: rest => if p.1 = k then some p.2 else alookup rest k

/-- Whether an op qualifies for rehosting: its `insert` is a dict whose
`image` entry is a string starting with `http://` or `https://`. -/
def opQualifies (op : Jobj) : Bool :=
  match jget op "insert" with
  | some (.obj ifields) =>
    match jget ifields "image" with
    | some v => is_insert_image (jget op "insert") && is_valid_insert_image_url v
    | none => false
  | _ => false

/-- Conformance of one op to the boundary schema of spec §6, as claim C1
reads it: `insert` present and either a text string or a media mapping
containing no disallowed key, and `attributes`, when present, a
mapping. -/
def opConforms (v : JValue) : Bool :=
  match v with
  | .obj fields =>
    (match jget fields "insert" with
     | some (.str _) => true
     | some (.obj m) => !(hasKey m "video")
     | _ => false) &&
    (match jget fields "attributes" with
     | none => true
     | some (.obj _) => true
     | some _ => false)
  | _ => false

/-- Conformance of a whole input document to the boundary schema of spec
§6: a mapping with optional non-negative integer `schema_version` and an
optional `delta` sequence of conforming ops. -/
def docConforms (v : JValue) : Bool :=
  match v with
  | .obj fields =>
    (match jget fields "schema_version" with
     | none => true
     | some (.int n) => decide (0 ≤ n)
     | some _ => false) &&
    (match jget fields "delta" with
     | none => true
     | some (.arr items) => items.all opConforms
     | some _ => false)
  | _ => false

/-- Raw `insert` value of one incoming op. -/
def insertOfRaw (it : JValue) : JValue :=
  match it with
  | .obj f => (jget f "insert").getD .null
  | _ => .null

/-- Text/media content of the incoming document: the raw `insert` value
of each op of the incoming `delta` list, in order. -/
def inputInserts (fields : Jobj) : List JValue :=
  match jget fields "delta" with
  | some (.arr items) => items.map insertOfRaw
  | _ => []

/-- Schema version of the incoming document as the spec reads it: the
integer under `schema_version`, defaulting to 0 when absent. -/
def inputSchemaVersion (fields : Jobj) : Int :=
  match jget fields "schema_version" with
  | some (.int n) => n
  | _ => 0

/-- Conditional tag wrapping, the spec-side reading of one step of §4.2:
wrap the content when the flag is truthy. -/
def wrapIf (b : Bool) (openTag closeTag content : String) : String :=
  if b then openTag ++ content ++ closeTag else content

/-- Spec-side reading of the outermost link wrapping of §4.2: when the
`link` attribute is a truthy string, wrap the content in an anchor whose
href is the escaped URL. -/
def wrapLink (afields : Jobj) (content : String) : String :=
  match jget afields "link" with
  | some (.str u) =>
    if (JValue.str u).isTruthy then
      "<a href=\"" ++ pyHtmlEscape u ++
        "\" target=\"_blank\" rel=\"noopener noreferrer\">" ++ content ++ "</a>"
    else content
  | _ => content

/-- Truthiness of one attribute key of an op's attribute mapping. -/
def attrTruthy (afields : Jobj) (key : String) : Bool :=
  ((jget afields key).getD .null).isTruthy

/-- Whether `pat` occurs as a contiguous substring of `l`. -/
def containsSub (l pat : List Char) : Bool :=
  (List.range (l.length + 1)).any (fun i => pat.isPrefixOf (l.drop i))

theorem jget_jset_self (l : Jobj) (k : String) (v : JValue) :
    jget (jset l k v) k = some v := by
  induction l with
  | nil => simp [jset, jget]
  | cons p rest ih =>
    by_cases h : p.1 = k
    · simp [jset, h, jget]
    · simp [jset, h, jget, ih]

theorem jget_jset_ne (l : Jobj) (k k2 : String) (v : JValue) (h : k2 ≠ k) :
    jget (jset l k v) k2 = jget l k2 := by
  induction l with
  | nil => simp [jset, jget, Ne.symm h]
  | cons p rest ih =>
    by_cases hp : p.1 = k
    · simp [jset, hp, jget, Ne.symm h]
    · simp [jset, hp, jget, ih]

theorem idxOf?_getElem (c : Char) :
    ∀ (l : List Char) (i : Nat), idxOf? c l = some i → l[i]? = some c := by
  intro l
  induction l with
  | nil => intro i h; simp [idxOf?] at h
  | cons x xs ih =>
    intro i h
    by_cases hx : x = c
    · simp [idxOf?, hx] at h
      subst h
      simp [hx]
    · simp [idxOf?, hx] at h
      obtain ⟨j, hj, hij⟩ := h
      subst hij
      simpa using ih j hj

theorem rIdxOf?_getElem (c : Char) (l : List Char) (i : Nat)
    (h : rIdxOf? c l = some i) : l[i]? = some c := by
  unfold rIdxOf? at h
  rw [Option.map_eq_some'] at h
  obtain ⟨j, hj, hij⟩ := h
  have hg := idxOf?_getElem c l.reverse j hj
  have hlt : j < l.reverse.length := by
    rw [List.getElem?_eq_some_iff] at hg
    exact hg.1
  rw [List.length_reverse] at hlt
  rw [List.getElem?_reverse hlt] at hg
  rw [← hij]
  exact hg

theorem processOp_cases (env : RehostEnv) (i : Nat) (op : Jobj) :
    processOp env i op = (op, false) ∨
    ∃ ifields url,
      jget op "insert" = some (.obj ifields) ∧
      jget ifields "image" = some (.str url) ∧
      is_valid_insert_image_url (.str url) = true ∧
      env.downloadOk i url = true ∧
      env.storeOk i = true ∧
      processOp env i op =
        (jset op "insert" (.obj (jset ifields "image" (.str (env.storedUrl i)))),
         true) := by
  unfold processOp
  cases hins : jget op "insert" with
  | none => simp [is_insert_image]
  | some v =>
    cases v with
    | obj ifields =>
      cases himg : jget ifields "image" with
      | none => simp [is_insert_image, himg]
      | some w =>
        cases w with
        | str url =>
          by_cases hvalid : is_valid_insert_image_url (.str url) = true
          · by_cases hdl : env.downloadOk i url = true
            · by_cases hst : env.storeOk i = true
              · right
                exact ⟨ifields, url, rfl, himg, hvalid, hdl, hst, by
                  simp [is_insert_image, himg, hvalid, hdl, hst]⟩
              · left
                simp [is_insert_image, himg, hvalid, hdl, hst]
            · left
              simp [is_insert_image, himg, hvalid, hdl]
          · left
            simp [is_insert_image, himg, hvalid]
        | null => simp [is_insert_image, himg]
        | bool b => simp [is_insert_image, himg]
        | int n => simp [is_insert_image, himg]
        | arr a => simp [is_insert_image, himg]
        | obj o => simp [is_insert_image, himg]
    | null => simp [is_insert_image]
    | bool b => simp [is_insert_image]
    | int n => simp [is_insert_image]
    | str s => simp [is_insert_image]
    | arr a => simp [is_insert_image]

theorem processOp_of_not_qualifies (env : RehostEnv) (i : Nat) (op : Jobj)
    (h : opQualifies op = false) : processOp env i op = (op, false) := by
  rcases processOp_cases env i op with hc | ⟨ifields, url, hins, himg, hvalid, _, _, _⟩
  · exact hc
  · exfalso
    simp [opQualifies, hins, himg, is_insert_image, hvalid] at h

theorem processFilesLoop_length (env : RehostEnv) :
    ∀ (ops : List Jobj) (k : Nat),
      (processFilesLoop env k ops).1.length = ops.length := by
  intro ops
  induction ops with
  | nil => intro k; rfl
  | cons op rest ih => intro k; simp [processFilesLoop, ih]

theorem processFilesLoop_getElem? (env : RehostEnv) :
    ∀ (ops : List Jobj) (k i : Nat),
      (processFilesLoop env k ops).1[i]? =
        (ops[i]?).map (fun op => (processOp env (k + i) op).1) := by
  intro ops
  induction ops with
  | nil => intro k i; simp [processFilesLoop]
  | cons op rest ih =>
    intro k i
    cases i with
    | zero => simp [processFilesLoop]
    | succ n =>
      have harith : k + 1 + n = k + (n + 1) := by omega
      simp only [processFilesLoop, List.getElem?_cons_succ]
      rw [ih (k + 1) n, harith]

theorem processFilesLoop_snd (env : RehostEnv) :
    ∀ (ops : List Jobj) (k : Nat),
      ((processFilesLoop env k ops).2 = true ↔
        ∃ i op, ops[i]? = some op ∧ (processOp env (k + i) op).2 = true) := by
  intro ops
  induction ops with
  | nil => intro k; simp [processFilesLoop]
  | cons op rest ih =>
    intro k
    simp only [processFilesLoop, Bool.or_eq_true]
    constructor
    · rintro (h | h)
      · exact ⟨0, op, by simp, by simpa using h⟩
      · obtain ⟨i, op2, hi, hp⟩ := (ih (k + 1)).1 h
        refine ⟨i + 1, op2, by simpa using hi, ?_⟩
        have harith : k + 1 + i = k + (i + 1) := by omega
        rw [← harith]
        exact hp
    · rintro ⟨i, op2, hi, hp⟩
      cases i with
      | zero =>
        left
        simp only [List.getElem?_cons_zero, Option.some.injEq] at hi
        subst hi
        simpa using hp
      | succ n =>
        right
        refine (ih (k + 1)).2 ⟨n, op2, by simpa using hi, ?_⟩
        have harith : k + 1 + n = k + (n + 1) := by omega
        rw [harith]
        exact hp

theorem processFilesLoop_of_none_qualify (env : RehostEnv) :
    ∀ (ops : List Jobj) (k : Nat), (∀ op ∈ ops, opQualifies op = false) →
      processFilesLoop env k ops = (ops, false) := by
  intro ops
  induction ops with
  | nil => intro k h; rfl
  | cons op rest ih =>
    intro k h
    have hop := processOp_of_not_qualifies env k op (h op (by simp))
    have hrest := ih (k + 1) (fun o ho => h o (by simp [ho]))
    simp [processFilesLoop, hop, hrest]

theorem validateOp_of_conforms (v : JValue) (h : opConforms v = true) :
    ∃ op : DeltaOp, validateOp v = .ok op ∧ insertOfRaw v = op.insert := by
  cases v with
  | obj fields =>
    rw [opConforms, Bool.and_eq_true] at h
    obtain ⟨h1, h2⟩ := h
    cases hi : jget fields "insert" with
    | none => rw [hi] at h1; simp at h1
    | some iv =>
      rw [hi] at h1
      cases ha : jget fields "attributes" with
      | none =>
        cases iv with
        | str s =>
          exact ⟨⟨.str s, none⟩, by
            simp [validateOp, hi, ha, textOrMedia_to_internal_value,
              validate_insert, DISALLOWED_MEDIA_TYPES],
            by simp [insertOfRaw, hi]⟩
        | obj m =>
          simp only [Bool.not_eq_true'] at h1
          exact ⟨⟨.obj m, none⟩, by
            simp [validateOp, hi, ha, textOrMedia_to_internal_value,
              validate_insert, DISALLOWED_MEDIA_TYPES, h1],
            by simp [insertOfRaw, hi]⟩
        | null => simp at h1
        | bool b => simp at h1
        | int n => simp at h1
        | arr a => simp at h1
      | some av =>
        rw [ha] at h2
        cases hav : av with
        | obj afields =>
          subst hav
          cases iv with
          | str s =>
            exact ⟨⟨.str s, some (.obj afields)⟩, by
              simp [validateOp, hi, ha, textOrMedia_to_internal_value,
                validate_insert, DISALLOWED_MEDIA_TYPES],
              by simp [insertOfRaw, hi]⟩
          | obj m =>
            simp only [Bool.not_eq_true'] at h1
            exact ⟨⟨.obj m, some (.obj afields)⟩, by
              simp [validateOp, hi, ha, textOrMedia_to_internal_value,
                validate_insert, DISALLOWED_MEDIA_TYPES, h1],
              by simp [insertOfRaw, hi]⟩
          | null => simp at h1
          | bool b => simp at h1
          | int n => simp at h1
          | arr a => simp at h1
        | null => subst hav; simp at h2
        | bool b => subst hav; simp at h2
        | int n => subst hav; simp at h2
        | str s => subst hav; simp at h2
        | arr a => subst hav; simp at h2
  | null => simp [opConforms] at h
  | bool b => simp [opConforms] at h
  | int n => simp [opConforms] at h
  | str s => simp [opConforms] at h
  | arr a => simp [opConforms] at h

theorem validate_results_of_conforms :
    ∀ (items : List JValue), items.all opConforms = true →
      ((items.map validateOp).any isErrorResult = false) ∧
      (((items.map validateOp).filterMap okResult?).map DeltaOp.insert =
        items.map insertOfRaw) := by
  intro items
  induction items with
  | nil => intro h; simp
  | cons v rest ih =>
    intro h
    rw [List.all_cons, Bool.and_eq_true] at h
    obtain ⟨hv, hrest⟩ := h
    obtain ⟨op, hop, hins⟩ := validateOp_of_conforms v hv
    obtain ⟨ih1, ih2⟩ := ih hrest
    refine ⟨?_, ?_⟩
    · simp [hop, isErrorResult, ih1]
    · simp only [List.map_cons, List.filterMap_cons, hop, okResult?]
      exact congrArg₂ List.cons hins.symm ih2

theorem validateOps_of_conforms (items : List JValue)
    (h : items.all opConforms = true) :
    ∃ ops : List DeltaOp, validateOps (.arr items) = .ok ops ∧
      ops.map DeltaOp.insert = items.map insertOfRaw := by
  obtain ⟨h1, h2⟩ := validate_results_of_conforms items h
  exact ⟨(items.map validateOp).filterMap okResult?, by simp [validateOps, h1], h2⟩

theorem renderOp_text (s : String) (afields : Jobj) (hs : s ≠ "")
    (hl : attrTruthy afields "link" = true →
      ∃ u : String, jget afields "link" = some (.str u)) :
    renderOp [("insert", .str s), ("attributes", .obj afields)] =
      .ok (wrapLink afields
        (wrapIf (attrTruthy afields "strike") "<s>" "</s>"
          (wrapIf (attrTruthy afields "underline") "<u>" "</u>"
            (wrapIf (attrTruthy afields "italic") "<em>" "</em>"
              (wrapIf (attrTruthy afields "bold") "<strong>" "</strong>"
                (pyHtmlEscape s)))))) := by
  have hse : s.isEmpty = false := by
    cases hise : s.isEmpty with
    | false => rfl
    | true => exact absurd ((String.isEmpty_iff s).1 hise) hs
  by_cases hemp : afields.isEmpty = true
  · have : afields = [] := List.isEmpty_eq_true.1 hemp
    subst this
    simp [renderOp, jget, JValue.isTruthy, hse, wrapLink, wrapIf, attrTruthy]
  · have hemp2 : afields.isEmpty = false := by
      cases hb : afields.isEmpty with
      | false => rfl
      | true => exact absurd hb hemp
    by_cases hlk : attrTruthy afields "link" = true
    · obtain ⟨u, hu⟩ := hl hlk
      have hut : (JValue.str u).isTruthy = true := by
        rw [attrTruthy, hu] at hlk
        exact hlk
      have hue : u.isEmpty = false := by simpa [JValue.isTruthy] using hut
      simp [renderOp, jget, JValue.isTruthy, hse, hemp2, wrapLink, wrapIf,
        attrTruthy, hu, hut, hue, pyHtmlEscapeValue]
    · have hlk2 : attrTruthy afields "link" = false := by
        cases hb : attrTruthy afields "link" with
        | false => rfl
        | true => exact absurd hb hlk
      cases hjl : jget afields "link" with
      | none =>
        simp [renderOp, jget, JValue.isTruthy, hse, hemp2, wrapLink, wrapIf,
          attrTruthy, hjl]
      | some v =>
        have hvf : v.isTruthy = false := by
          rw [attrTruthy, hjl] at hlk2
          exact hlk2
        cases v with
        | str u =>
          have hue : u.isEmpty = true := by simpa [JValue.isTruthy] using hvf
          simp [renderOp, jget, JValue.isTruthy, hse, hemp2, wrapLink, wrapIf,
            attrTruthy, hjl, hvf, hue]
        | null =>
          simp [renderOp, jget, JValue.isTruthy, hse, hemp2, wrapLink, wrapIf,
            attrTruthy, hjl, hvf]
        | bool b =>
          have hb : b = false := by simpa [JValue.isTruthy] using hvf
          subst hb
          simp [renderOp, jget, JValue.isTruthy, hse, hemp2, wrapLink, wrapIf,
            attrTruthy, hjl, hvf]
        | int n =>
          have hn : n = 0 := by simpa [JValue.isTruthy] using hvf
          subst hn
          simp [renderOp, jget, JValue.isTruthy, hse, hemp2, wrapLink, wrapIf,
            attrTruthy, hjl, hvf]
        | arr a =>
          have ha : a.isEmpty = true := by simpa [JValue.isTruthy] using hvf
          simp [renderOp, jget, JValue.isTruthy, hse, hemp2, wrapLink, wrapIf,
            attrTruthy, hjl, hvf, ha]
        | obj o =>
          have ho : o.isEmpty = true := by simpa [JValue.isTruthy] using hvf
          simp [renderOp, jget, JValue.isTruthy, hse, hemp2, wrapLink, wrapIf,
            attrTruthy, hjl, hvf, ho]

/-- C1: for every input document conforming to the boundary schema of
spec §6 — a mapping with optional non-negative integer `schema_version`
and a `delta` sequence of ops whose `insert` is a string or a media
mapping containing no disallowed key — `validate` succeeds and returns a
document whose ops have the same length, order and text/media content as
the input, with `schema_version` defaulting to 0 and `ops` defaulting to
`[]` when those keys are omitted. -/
theorem C1_validate_roundtrip (fields : Jobj)
    (h : docConforms (.obj fields) = true) :
    ∃ d : DeltaDocument, validate (.obj fields) = .ok d ∧
      d.delta.map DeltaOp.insert = inputInserts fields ∧
      d.schema_version = inputSchemaVersion fields ∧
      (jget fields "schema_version" = none → d.schema_version = 0) ∧
      (jget fields "delta" = none → d.delta = []) := by
  rw [docConforms, Bool.and_eq_true] at h
  obtain ⟨h1, h2⟩ := h
  cases hsv : jget fields "schema_version" with
  | none =>
    cases hd : jget fields "delta" with
    | none =>
      exact ⟨⟨0, []⟩, by simp [validate, hsv, hd, validateSchemaVersion],
        by simp [inputInserts, hd], by simp [inputSchemaVersion, hsv],
        fun _ => rfl, fun _ => rfl⟩
    | some dv =>
      rw [hd] at h2
      cases dv with
      | arr items =>
        simp only at h2
        obtain ⟨ops, hops, hmap⟩ := validateOps_of_conforms items h2
        refine ⟨⟨0, ops⟩, ?_, ?_, ?_, fun _ => rfl, ?_⟩
        · simp [validate, hsv, hd, validateSchemaVersion, hops]
        · simpa [inputInserts, hd] using hmap
        · simp [inputSchemaVersion, hsv]
        · intro hc; simp at hc
      | null => simp at h2
      | bool b => simp at h2
      | int n => simp at h2
      | str s => simp at h2
      | obj o => simp at h2
  | some sv =>
    rw [hsv] at h1
    cases sv with
    | int n =>
      cases hd : jget fields "delta" with
      | none =>
        refine ⟨⟨n, []⟩, ?_, ?_, ?_, ?_, fun _ => rfl⟩
        · simp [validate, hsv, hd, validateSchemaVersion]
        · simp [inputInserts, hd]
        · simp [inputSchemaVersion, hsv]
        · intro hc; simp at hc
      | some dv =>
        rw [hd] at h2
        cases dv with
        | arr items =>
          simp only at h2
          obtain ⟨ops, hops, hmap⟩ := validateOps_of_conforms items h2
          refine ⟨⟨n, ops⟩, ?_, ?_, ?_, ?_, ?_⟩
          · simp [validate, hsv, hd, validateSchemaVersion, hops]
          · simpa [inputInserts, hd] using hmap
          · simp [inputSchemaVersion, hsv]
          · intro hc; simp at hc
          · intro hc; simp at hc
        | null => simp at h2
        | bool b => simp at h2
        | int m => simp at h2
        | str s => simp at h2
        | obj o => simp at h2
    | null => simp at h1
    | bool b => simp at h1
    | str s => simp at h1
    | arr a => simp at h1
    | obj o => simp at h1

/-- Witness for C1: a conforming document with an explicit
`schema_version`, one text op and one image op. -/
theorem C1_validate_roundtrip_witness :
    ∃ d : DeltaDocument,
      validate (.obj [("schema_version", JValue.int 2),
        ("delta", .arr [.obj [("insert", .str "hi")],
          .obj [("insert", .obj [("image", .str "u")])]])]) = .ok d ∧
      d.delta.map DeltaOp.insert =
        inputInserts [("schema_version", JValue.int 2),
          ("delta", .arr [.obj [("insert", .str "hi")],
            .obj [("insert", .obj [("image", .str "u")])]])] ∧
      d.schema_version =
        inputSchemaVersion [("schema_version", JValue.int 2),
          ("delta", .arr [.obj [("insert", .str "hi")],
            .obj [("insert", .obj [("image", .str "u")])]])] ∧
      (jget [("schema_version", JValue.int 2),
          ("delta", .arr [.obj [("insert", .str "hi")],
            .obj [("insert", .obj [("image", .str "u")])]])]
          "schema_version" = none → d.schema_version = 0) ∧
      (jget [("schema_version", JValue.int 2),
          ("delta", .arr [.obj [("insert", .str "hi")],
            .obj [("insert", .obj [("image", .str "u")])]])]
          "delta" = none → d.delta = []) :=
  C1_validate_roundtrip
    [("schema_version", JValue.int 2),
      ("delta", .arr [.obj [("insert", .str "hi")],
        .obj [("insert", .obj [("image", .str "u")])]])] (by rfl)

/-- C2: for every text insert op the renderer escapes the HTML-special
characters of the text first and then wraps the escaped text with tags
for each truthy attribute in the fixed nesting order bold innermost,
then italic, underline, strike, and link outermost, the link URL itself
being escaped before it is placed in the href attribute; concretely,
rendering `<script>` leaves no literal `<script>` in the output, and the
bold+italic op renders as `<em><strong>x</strong></em>`. -/
theorem C2_render_escape_and_nesting :
    (∀ (s : String) (afields : Jobj), s ≠ "" →
      (attrTruthy afields "link" = true →
        ∃ u : String, jget afields "link" = some (.str u)) →
      render_delta_to_html
          [[("insert", .str s), ("attributes", .obj afields)]] =
        .ok (wrapLink afields
          (wrapIf (attrTruthy afields "strike") "<s>" "</s>"
            (wrapIf (attrTruthy afields "underline") "<u>" "</u>"
              (wrapIf (attrTruthy afields "italic") "<em>" "</em>"
                (wrapIf (attrTruthy afields "bold") "<strong>" "</strong>"
                  (pyHtmlEscape s))))))) ∧
    (render_delta_to_html [[("insert", .str "<script>")]] =
      .ok "&lt;script&gt;") ∧
    (containsSub "&lt;script&gt;".data "<script>".data = false) ∧
    (render_delta_to_html
        [[("insert", .str "x"),
          ("attributes", .obj [("bold", .bool true), ("italic", .bool true)])]] =
      .ok "<em><strong>x</strong></em>") ∧
    (render_delta_to_html
        [[("insert", .str "x"),
          ("attributes", .obj [("bold", .bool true), ("italic", .bool true),
            ("underline", .bool true), ("strike", .bool true),
            ("link", .str "https://e.com/?a=1&b=\"2\"")])]] =
      .ok ("<a href=\"https://e.com/?a=1&amp;b=&quot;2&quot;\" target=\"_blank\" " ++
           "rel=\"noopener noreferrer\">" ++
           "<s><u><em><strong>x</strong></em></u></s></a>")) := by
  refine ⟨?_, by rfl, by decide, by rfl, by rfl⟩
  intro s afields hs hl
  simp only [render_delta_to_html, renderOp_text s afields hs hl]
  rw [String.append_empty]

/-- Witness for C2: the general clause applied to a concrete unformatted
op. -/
theorem C2_render_escape_and_nesting_witness :
    render_delta_to_html
        [[("insert", JValue.str "hi"), ("attributes", JValue.obj [])]] =
      .ok (wrapLink []
        (wrapIf (attrTruthy [] "strike") "<s>" "</s>"
          (wrapIf (attrTruthy [] "underline") "<u>" "</u>"
            (wrapIf (attrTruthy [] "italic") "<em>" "</em>"
              (wrapIf (attrTruthy [] "bold") "<strong>" "</strong>"
                (pyHtmlEscape "hi")))))) :=
  C2_render_escape_and_nesting.1 "hi" [] (by decide)
    (fun h => absurd h (by decide))

/-- C3: the rehoster processes ops in a single pass in document order
and reports `true` exactly when at least one op was successfully
rehosted; a failing qualifying op is left unchanged while the remaining
ops are still processed and the call still returns — in particular, with
two qualifying image ops where the first download fails and the second
succeeds, the call returns `true` with the first op untouched and the
second op's URL rewritten. -/
theorem C3_rehost_partial_failure :
    (∀ (cfg : RehostConfig) (env : RehostEnv) (ops : List Jobj),
      (process_files cfg env ops).2 = true ↔
        (cfg.active = true ∧
          ∃ i op, ops[i]? = some op ∧ (processOp env i op).2 = true)) ∧
    (∀ (cfg : RehostConfig) (env : RehostEnv) (op1 op2 if1 if2 : Jobj)
        (url1 url2 : String),
      cfg.active = true →
      jget op1 "insert" = some (.obj if1) →
      jget if1 "image" = some (.str url1) →
      is_valid_insert_image_url (.str url1) = true →
      env.downloadOk 0 url1 = false →
      jget op2 "insert" = some (.obj if2) →
      jget if2 "image" = some (.str url2) →
      is_valid_insert_image_url (.str url2) = true →
      env.downloadOk 1 url2 = true →
      env.storeOk 1 = true →
      process_files cfg env [op1, op2] =
        ([op1, jset op2 "insert" (.obj (jset if2 "image" (.str (env.storedUrl 1))))],
         true)) := by
  constructor
  · intro cfg env ops
    by_cases hact : cfg.active = true
    · rw [process_files, if_pos hact]
      rw [processFilesLoop_snd env ops 0]
      simp [hact]
    · have hact2 : cfg.active = false := by
        cases hb : cfg.active with
        | false => rfl
        | true => exact absurd hb hact
      rw [process_files, hact2]
      simp [hact2]
  · intro cfg env op1 op2 if1 if2 url1 url2 hact hins1 himg1 hval1 hdl1
      hins2 himg2 hval2 hdl2 hst2
    have h1 : processOp env 0 op1 = (op1, false) := by
      simp [processOp, hins1, is_insert_image, himg1, hval1, hdl1]
    have h2 : processOp env 1 op2 =
        (jset op2 "insert" (.obj (jset if2 "image" (.str (env.storedUrl 1)))),
         true) := by
      simp [processOp, hins2, is_insert_image, himg2, hval2, hdl2, hst2]
    rw [process_files, if_pos hact]
    simp [processFilesLoop, h1, h2]

/-- Witness for C3: a two-op document against an environment whose first
download fails and whose second succeeds. -/
theorem C3_rehost_partial_failure_witness :
    process_files ⟨some "content_files", true⟩
        ⟨fun i _ => decide (i = 1), fun _ => true, fun _ => "/media/new.png"⟩
        [[("insert", JValue.obj [("image", JValue.str "https://a/x.png")])],
         [("insert", JValue.obj [("image", JValue.str "https://a/y.png")])]] =
      ([[("insert", JValue.obj [("image", JValue.str "https://a/x.png")])],
        [("insert", JValue.obj [("image", JValue.str "/media/new.png")])]],
       true) := by
  have h := C3_rehost_partial_failure.2 ⟨some "content_files", true⟩
    ⟨fun i _ => decide (i = 1), fun _ => true, fun _ => "/media/new.png"⟩
    [("insert", JValue.obj [("image", JValue.str "https://a/x.png")])]
    [("insert", JValue.obj [("image", JValue.str "https://a/y.png")])]
    [("image", JValue.str "https://a/x.png")]
    [("image", JValue.str "https://a/y.png")]
    "https://a/x.png" "https://a/y.png"
    (by rfl) (by rfl) (by rfl) (by decide) (by rfl)
    (by rfl) (by rfl) (by decide) (by rfl) (by rfl)
  simpa using h

/-- Counterexample to C4: an op carrying the unrecognized top-level key
`extra` alongside a valid `insert` is accepted by `validate` — the
unknown key is silently ignored rather than rejected, so validation does
not fail on ops with keys outside `insert` and `attributes`. -/
theorem C4_extra_key_accepted_counterexample :
    validate (.obj [("delta",
        .arr [.obj [("insert", .str "x"), ("extra", .int 1)]])]) =
      .ok ⟨0, [⟨.str "x", none⟩]⟩ := by rfl

/-- C4 (amended): `validate` rejects non-sequence ops, ops missing
`insert`, and ops whose `insert` is neither string nor mapping; but it
does not reject an op with a top-level key outside `{insert,
attributes}` — unknown keys are ignored, and the validation outcome of
an op depends only on its `insert` and `attributes` entries. -/
theorem C4_rejections_amended :
    (∀ v : JValue, (∀ items : List JValue, v ≠ .arr items) →
      ∃ msgs, validateOps v = .error (.messages msgs)) ∧
    (∀ f : Jobj, jget f "insert" = none →
      ∃ e, validateOp (.obj f) = .error e ∧
        alookup e "insert" = some "This field is required.") ∧
    (∀ (f : Jobj) (v : JValue), jget f "insert" = some v →
      (∀ s, v ≠ .str s) → (∀ m, v ≠ .obj m) →
      ∃ e, validateOp (.obj f) = .error e ∧
        alookup e "insert" =
          some "This field must be a string or a dictionary.") ∧
    (∀ f g : Jobj, jget f "insert" = jget g "insert" →
      jget f "attributes" = jget g "attributes" →
      validateOp (.obj f) = validateOp (.obj g)) := by
  refine ⟨?_, ?_, ?_, ?_⟩
  · intro v hv
    cases v with
    | arr items => exact absurd rfl (hv items)
    | null => exact ⟨_, rfl⟩
    | bool b => exact ⟨_, rfl⟩
    | int n => exact ⟨_, rfl⟩
    | str s => exact ⟨_, rfl⟩
    | obj o => exact ⟨_, rfl⟩
  · intro f hi
    cases ha : jget f "attributes" with
    | none =>
      refine ⟨[("insert", "This field is required.")], ?_, by simp [alookup]⟩
      simp [validateOp, hi, ha]
    | some av =>
      cases av with
      | obj afields =>
        refine ⟨[("insert", "This field is required.")], ?_, by simp [alookup]⟩
        simp [validateOp, hi, ha]
      | null =>
        refine ⟨[("insert", "This field is required."),
            ("attributes", "Expected a dictionary of items.")], ?_, by simp [alookup]⟩
        simp [validateOp, hi, ha]
      | bool b =>
        refine ⟨[("insert", "This field is required."),
            ("attributes", "Expected a dictionary of items.")], ?_, by simp [alookup]⟩
        simp [validateOp, hi, ha]
      | int n =>
        refine ⟨[("insert", "This field is required."),
            ("attributes", "Expected a dictionary of items.")], ?_, by simp [alookup]⟩
        simp [validateOp, hi, ha]
      | str s =>
        refine ⟨[("insert", "This field is required."),
            ("attributes", "Expected a dictionary of items.")], ?_, by simp [alookup]⟩
        simp [validateOp, hi, ha]
      | arr a =>
        refine ⟨[("insert", "This field is required."),
            ("attributes", "Expected a dictionary of items.")], ?_, by simp [alookup]⟩
        simp [validateOp, hi, ha]
  · intro f v hi hvs hvm
    have htm : textOrMedia_to_internal_value v =
        .error "This field must be a string or a dictionary." := by
      cases v with
      | str s => exact absurd rfl (hvs s)
      | obj m => exact absurd rfl (hvm m)
      | null => rfl
      | bool b => rfl
      | int n => rfl
      | arr a => rfl
    cases ha : jget f "attributes" with
    | none =>
      refine ⟨[("insert", "This field must be a string or a dictionary.")], ?_, by simp [alookup]⟩
      simp [validateOp, hi, ha, htm]
    | some av =>
      cases av with
      | obj afields =>
        refine ⟨[("insert", "This field must be a string or a dictionary.")], ?_, by simp [alookup]⟩
        simp [validateOp, hi, ha, htm]
      | null =>
        refine ⟨[("insert", "This field must be a string or a dictionary."),
            ("attributes", "Expected a dictionary of items.")], ?_, by simp [alookup]⟩
        simp [validateOp, hi, ha, htm]
      | bool b =>
        refine ⟨[("insert", "This field must be a string or a dictionary."),
            ("attributes", "Expected a dictionary of items.")], ?_, by simp [alookup]⟩
        simp [validateOp, hi, ha, htm]
      | int n =>
        refine ⟨[("insert", "This field must be a string or a dictionary."),
            ("attributes", "Expected a dictionary of items.")], ?_, by simp [alookup]⟩
        simp [validateOp, hi, ha, htm]
      | str s =>
        refine ⟨[("insert", "This field must be a string or a dictionary."),
            ("attributes", "Expected a dictionary of items.")], ?_, by simp [alookup]⟩
        simp [validateOp, hi, ha, htm]
      | arr a =>
        refine ⟨[("insert", "This field must be a string or a dictionary."),
            ("attributes", "Expected a dictionary of items.")], ?_, by simp [alookup]⟩
        simp [validateOp, hi, ha, htm]
  · intro f g h1 h2
    simp only [validateOp]
    rw [h1, h2]

/-- Witness for C4 (amended): the op from the counterexample and the
same op with the unknown key removed validate identically. -/
theorem C4_rejections_amended_witness :
    validateOp (.obj [("insert", JValue.str "x"), ("extra", JValue.int 1)]) =
      validateOp (.obj [("insert", JValue.str "x")]) :=
  C4_rejections_amended.2.2.2
    [("insert", JValue.str "x"), ("extra", JValue.int 1)]
    [("insert", JValue.str "x")] (by rfl) (by rfl)

/-- C5: for every op whose `insert` is a mapping containing the key
`video`, validation fails, and the resulting error is keyed under
`delta` and identifies the offending op's `insert` field. -/
theorem C5_video_insert_rejected (dfields : Jobj) (items : List JValue)
    (i : Nat) (opf ins : Jobj)
    (hd : jget dfields "delta" = some (.arr items))
    (hi : items[i]? = some (.obj opf))
    (hins : jget opf "insert" = some (.obj ins))
    (hv : hasKey ins "video" = true) :
    ∃ (e : Errors) (entries : List OpErrors) (opErrs : OpErrors),
      validate (.obj dfields) = .error e ∧
      alookup e "delta" = some (.opErrors entries) ∧
      entries[i]? = some opErrs ∧
      alookup opErrs "insert" = some "Insert of video is not allowed." := by
  have hopErr : ∃ opErrs, validateOp (.obj opf) = .error opErrs ∧
      alookup opErrs "insert" = some "Insert of video is not allowed." := by
    cases ha : jget opf "attributes" with
    | none =>
      refine ⟨[("insert", "Insert of video is not allowed.")], ?_, by simp [alookup]⟩
      simp [validateOp, hins, ha, textOrMedia_to_internal_value, validate_insert, DISALLOWED_MEDIA_TYPES, hv]
    | some av =>
      cases av with
      | obj afields =>
        refine ⟨[("insert", "Insert of video is not allowed.")], ?_, by simp [alookup]⟩
        simp [validateOp, hins, ha, textOrMedia_to_internal_value, validate_insert, DISALLOWED_MEDIA_TYPES, hv]
      | null =>
        refine ⟨[("insert", "Insert of video is not allowed."),
            ("attributes", "Expected a dictionary of items.")], ?_, by simp [alookup]⟩
        simp [validateOp, hins, ha, textOrMedia_to_internal_value, validate_insert, DISALLOWED_MEDIA_TYPES, hv]
      | bool b =>
        refine ⟨[("insert", "Insert of video is not allowed."),
            ("attributes", "Expected a dictionary of items.")], ?_, by simp [alookup]⟩
        simp [validateOp, hins, ha, textOrMedia_to_internal_value, validate_insert, DISALLOWED_MEDIA_TYPES, hv]
      | int n =>
        refine ⟨[("insert", "Insert of video is not allowed."),
            ("attributes", "Expected a dictionary of items.")], ?_, by simp [alookup]⟩
        simp [validateOp, hins, ha, textOrMedia_to_internal_value, validate_insert, DISALLOWED_MEDIA_TYPES, hv]
      | str s =>
        refine ⟨[("insert", "Insert of video is not allowed."),
            ("attributes", "Expected a dictionary of items.")], ?_, by simp [alookup]⟩
        simp [validateOp, hins, ha, textOrMedia_to_internal_value, validate_insert, DISALLOWED_MEDIA_TYPES, hv]
      | arr a =>
        refine ⟨[("insert", "Insert of video is not allowed."),
            ("attributes", "Expected a dictionary of items.")], ?_, by simp [alookup]⟩
        simp [validateOp, hins, ha, textOrMedia_to_internal_value, validate_insert, DISALLOWED_MEDIA_TYPES, hv]
  obtain ⟨opErrs, hop, hlook⟩ := hopErr
  have hmem : (JValue.obj opf) ∈ items := List.getElem?_mem hi
  have hany : (items.map validateOp).any isErrorResult = true := by
    rw [List.any_eq_true]
    exact ⟨validateOp (.obj opf), List.mem_map_of_mem _ hmem,
      by simp [isErrorResult, hop]⟩
  have hvo : validateOps (.arr items) =
      .error (.opErrors ((items.map validateOp).map opResultErrors)) := by
    simp [validateOps, hany]
  have hentry : ((items.map validateOp).map opResultErrors)[i]? = some opErrs := by
    simp [List.getElem?_map, hi, hop, opResultErrors]
  cases hsv : validateSchemaVersion (jget dfields "schema_version") with
  | ok n =>
    refine ⟨[("delta", .opErrors ((items.map validateOp).map opResultErrors))],
      _, opErrs, ?_, ?_, hentry, hlook⟩
    · simp [validate, hd, hsv, hvo]
    · simp [alookup]
  | error msgs =>
    refine ⟨[("schema_version", .messages msgs),
        ("delta", .opErrors ((items.map validateOp).map opResultErrors))],
      _, opErrs, ?_, ?_, hentry, hlook⟩
    · simp [validate, hd, hsv, hvo]
    · simp [alookup]

/-- Witness for C5: a document with a single video insert fails with the
expected error shape. -/
theorem C5_video_insert_rejected_witness :
    ∃ (e : Errors) (entries : List OpErrors) (opErrs : OpErrors),
      validate (.obj [("delta",
          .arr [.obj [("insert", .obj [("video", .str "http://v.mp4")])]])]) =
        .error e ∧
      alookup e "delta" = some (.opErrors entries) ∧
      entries[0]? = some opErrs ∧
      alookup opErrs "insert" = some "Insert of video is not allowed." :=
  C5_video_insert_rejected
    [("delta", .arr [.obj [("insert", .obj [("video", .str "http://v.mp4")])]])]
    [.obj [("insert", .obj [("video", .str "http://v.mp4")])]]
    0 [("insert", .obj [("video", .str "http://v.mp4")])]
    [("video", .str "http://v.mp4")]
    (by rfl) (by rfl) (by rfl) (by rfl)

/-- C6: the rehoster returns `false` and leaves every op unmodified
whenever nothing qualifies: when the attachment field is unset or the
owner entity is absent, and when every op fails the image/http
qualification; in particular an op referencing a relative image path is
left unmodified. -/
theorem C6_rehost_noop :
    (∀ (cfg : RehostConfig) (env : RehostEnv) (delta : List Jobj),
      cfg.active = false → process_files cfg env delta = (delta, false)) ∧
    (∀ (cfg : RehostConfig) (env : RehostEnv) (ops : List Jobj),
      (∀ op ∈ ops, opQualifies op = false) →
      process_files cfg env ops = (ops, false)) ∧
    (∀ (cfg : RehostConfig) (env : RehostEnv),
      process_files cfg env
          [[("insert", JValue.obj [("image", JValue.str "relative/path.png")])]] =
        ([[("insert", JValue.obj [("image", JValue.str "relative/path.png")])]],
         false)) := by
  have h2 : ∀ (cfg : RehostConfig) (env : RehostEnv) (ops : List Jobj),
      (∀ op ∈ ops, opQualifies op = false) →
      process_files cfg env ops = (ops, false) := by
    intro cfg env ops h
    by_cases hact : cfg.active = true
    · rw [process_files, if_pos hact]
      exact processFilesLoop_of_none_qualify env ops 0 h
    · rw [process_files, if_neg hact]
  refine ⟨?_, h2, ?_⟩
  · intro cfg env delta h
    simp [process_files, h]
  · intro cfg env
    refine h2 cfg env _ ?_
    intro op hop
    rw [List.mem_singleton] at hop
    subst hop
    decide

/-- Witness for C6: an inactive configuration is a no-op on the empty
document. -/
theorem C6_rehost_noop_witness :
    process_files ⟨none, true⟩
        ⟨fun _ _ => true, fun _ => true, fun _ => "u"⟩ [] = ([], false) :=
  C6_rehost_noop.1 ⟨none, true⟩
    ⟨fun _ _ => true, fun _ => true, fun _ => "u"⟩ [] (by rfl)

/-- C7: in both the create and the update flow the owning entity is
persisted first, then the rehoster is invoked on the persisted entity's
document, and a second persist of the entity happens exactly when the
rehoster reported that at least one op was mutated. -/
theorem C7_double_persist (cfg : RehostConfig) (env : RehostEnv)
    (validatedDelta : List Jobj) (existing : Entity) :
    (mixin_create true cfg env validatedDelta =
      (⟨(process_files cfg env validatedDelta).1⟩,
       [.persist validatedDelta, .rehost validatedDelta] ++
         (if (process_files cfg env validatedDelta).2 then
            [.persist (process_files cfg env validatedDelta).1]
          else []))) ∧
    (mixin_update true cfg env existing validatedDelta =
      (⟨(process_files cfg env validatedDelta).1⟩,
       [.persist validatedDelta, .rehost validatedDelta] ++
         (if (process_files cfg env validatedDelta).2 then
            [.persist (process_files cfg env validatedDelta).1]
          else []))) := by
  cases hr : (process_files cfg env validatedDelta).2 with
  | true => exact ⟨by simp [mixin_create, hr], by simp [mixin_update, hr]⟩
  | false => exact ⟨by simp [mixin_create, hr], by simp [mixin_update, hr]⟩

theorem pysplitextExt_head (p : List Char) :
    pysplitextExt p = [] ∨ (pysplitextExt p)[0]? = some '.' := by
  unfold pysplitextExt
  cases hdot : rIdxOf? '.' p with
  | none => left; rfl
  | some dotIndex =>
    have hget := rIdxOf?_getElem '.' p dotIndex hdot
    cases hsep : rIdxOf? '/' p with
    | none =>
      simp only
      split
      · right
        rw [List.getElem?_drop, Nat.add_zero]
        exact hget
      · left; rfl
    | some sepIndex =>
      simp only
      split
      · right
        rw [List.getElem?_drop, Nat.add_zero]
        exact hget
      · left; rfl

/-- C8: for every successfully derived storage path, the path has the
form `post_images/{uuid}{ext}` where `ext` is the extension taken from
the URL's path component, with `.jpg` as the fallback when that
extension is empty; the appended extension always begins with a dot. -/
theorem C8_storage_path_shape (url u p : String)
    (h : get_path u url = .ok p) :
    ∃ rawExt : String, url_ext url = .ok rawExt ∧
      p = "post_images/" ++ u ++ (if rawExt = "" then ".jpg" else rawExt) ∧
      ((if rawExt = "" then ".jpg" else rawExt).data)[0]? = some '.' := by
  rw [get_path] at h
  cases hup : urlparse_path url with
  | error e => rw [hup] at h; cases h
  | ok path =>
    rw [hup] at h
    simp only [Except.ok.injEq] at h
    refine ⟨String.mk (pysplitextExt (pybasename path.data)), ?_, ?_, ?_⟩
    · rw [url_ext, hup]
    · exact h.symm
    · rcases pysplitextExt_head (pybasename path.data) with hnil | hdotc
      · rw [hnil]
        rfl
      · have hne : String.mk (pysplitextExt (pybasename path.data)) ≠ "" := by
          intro hc
          have : pysplitextExt (pybasename path.data) = [] := by
            have := congrArg String.data hc
            simpa using this
          rw [this] at hdotc
          cases hdotc
        rw [if_neg hne]
        exact hdotc

/-- Witness for C8: a URL whose path carries a `.png` extension. -/
theorem C8_storage_path_shape_witness :
    ∃ rawExt : String, url_ext "https://host/a/x.png?q=1" = .ok rawExt ∧
      "post_images/uid42.png" =
        "post_images/" ++ "uid42" ++ (if rawExt = "" then ".jpg" else rawExt) ∧
      ((if rawExt = "" then ".jpg" else rawExt).data)[0]? = some '.' :=
  C8_storage_path_shape "https://host/a/x.png?q=1" "uid42"
    "post_images/uid42.png" (by rfl)

/-- C9: the rehoster never changes the number or order of ops, never
modifies text inserts or any op's attributes, and the only value it ever
writes is the string under `insert.image` of an op that qualified and
whose download and storage succeeded. -/
theorem C9_rehost_frame (cfg : RehostConfig) (env : RehostEnv)
    (ops : List Jobj) :
    ((process_files cfg env ops).1.length = ops.length) ∧
    (∀ i op, ops[i]? = some op →
      ∃ op2, (process_files cfg env ops).1[i]? = some op2 ∧
        (op2 = op ∨
          (∃ ifields url,
            jget op "insert" = some (.obj ifields) ∧
            jget ifields "image" = some (.str url) ∧
            is_valid_insert_image_url (.str url) = true ∧
            env.downloadOk i url = true ∧
            env.storeOk i = true ∧
            op2 = jset op "insert"
              (.obj (jset ifields "image" (.str (env.storedUrl i)))) ∧
            (∀ k, k ≠ "insert" → jget op2 k = jget op k) ∧
            jget op2 "insert" =
              some (.obj (jset ifields "image" (.str (env.storedUrl i)))) ∧
            (∀ k, k ≠ "image" →
              jget (jset ifields "image" (.str (env.storedUrl i))) k =
                jget ifields k)))) := by
  by_cases hact : cfg.active = true
  · constructor
    · rw [process_files, if_pos hact, processFilesLoop_length]
    · intro i op hi
      have hget : (process_files cfg env ops).1[i]? =
          some ((processOp env i op).1) := by
        rw [process_files, if_pos hact, processFilesLoop_getElem?, hi,
          Option.map_some', Nat.zero_add]
      refine ⟨(processOp env i op).1, hget, ?_⟩
      rcases processOp_cases env i op with
        hc | ⟨ifields, url, hins, himg, hval, hdl, hst, heq⟩
      · left; rw [hc]
      · right
        refine ⟨ifields, url, hins, himg, hval, hdl, hst, by rw [heq], ?_, ?_, ?_⟩
        · intro k hk
          rw [heq]
          exact jget_jset_ne op "insert" k _ hk
        · rw [heq]
          exact jget_jset_self op "insert" _
        · intro k hk
          exact jget_jset_ne ifields "image" k _ hk
  · constructor
    · rw [process_files, if_neg hact]
    · intro i op hi
      refine ⟨op, ?_, Or.inl rfl⟩
      rw [process_files, if_neg hact]
      exact hi

/-- Witness for C9: a text op is returned unchanged at its position. -/
theorem C9_rehost_frame_witness :
    ∃ op2,
      (process_files ⟨some "content_files", true⟩
          ⟨fun _ _ => true, fun _ => true, fun _ => "u"⟩
          [[("insert", JValue.str "hello")]]).1[0]? = some op2 ∧
        (op2 = [("insert", JValue.str "hello")] ∨
          (∃ ifields url,
            jget [("insert", JValue.str "hello")] "insert" =
              some (.obj ifields) ∧
            jget ifields "image" = some (.str url) ∧
            is_valid_insert_image_url (.str url) = true ∧
            (true : Bool) = true ∧
            (true : Bool) = true ∧
            op2 = jset [("insert", JValue.str "hello")] "insert"
              (.obj (jset ifields "image" (.str "u"))) ∧
            (∀ k, k ≠ "insert" →
              jget op2 k = jget [("insert", JValue.str "hello")] k) ∧
            jget op2 "insert" = some (.obj (jset ifields "image" (.str "u"))) ∧
            (∀ k, k ≠ "image" →
              jget (jset ifields "image" (.str "u")) k = jget ifields k))) :=
  (C9_rehost_frame ⟨some "content_files", true⟩
      ⟨fun _ _ => true, fun _ => true, fun _ => "u"⟩
      [[("insert", JValue.str "hello")]]).2 0
    [("insert", JValue.str "hello")] (by rfl)

/-- C10: validation accepts an op whose `image` value is not a string
(nothing constrains the media value's type); such an op is then skipped
by the rehoster's string check, while the renderer's image branch
assumes a string value and raises on it. -/
theorem C10_media_value_not_type_checked :
    (validate (.obj [("delta",
        .arr [.obj [("insert", .obj [("image", .int 123)])]])]) =
      .ok ⟨0, [⟨.obj [("image", .int 123)], none⟩]⟩) ∧
    (∀ (cfg : RehostConfig) (env : RehostEnv),
      process_files cfg env
          [[("insert", JValue.obj [("image", JValue.int 123)])]] =
        ([[("insert", JValue.obj [("image", JValue.int 123)])]], false)) ∧
    (∃ msg, render_delta_to_html
        [[("insert", JValue.obj [("image", JValue.int 123)])]] = .error msg) := by
  refine ⟨by rfl, ?_, ⟨"TypeError: html.escape expects a string", by rfl⟩⟩
  intro cfg env
  by_cases hact : cfg.active = true
  · rw [process_files, if_pos hact]
    refine processFilesLoop_of_none_qualify env _ 0 ?_
    intro op hop
    rw [List.mem_singleton] at hop
    subst hop
    decide
  · rw [process_files, if_neg hact]

end RecipeApi
